import Mathlib

/-!
Verification development for the go-mdfmt document-rewriting pipeline.

Shallow embedding of the Go sources:
  pkg/parser/ast.go      (node kinds, Walker)
  pkg/parser/parser.go   (stub ParseString)
  pkg/formatter/formatter.go (Engine, Register, default formatters)
  pkg/renderer/renderer.go   (MarkdownRenderer)
  pkg/config/config.go   (Config, Validate)

Go strings are modelled as Lean String (byte length and char length agree on
the ASCII data used in concrete witnesses).  In-place mutation of a node by a
formatter is modelled by the formatter returning the mutated node; the engine
threads the states of the nodes yielded by the walker.  A Go panic inside the
renderer (strings.Repeat with a negative count) is modelled as an error value
on the Except channel.
-/

namespace Mdfmt

/-- Go pkg/config: HeadingConfig. -/
structure HeadingConfig where
  style : String
  normalizeLevels : Bool
deriving Repr, DecidableEq

/-- Go pkg/config: ListConfig. -/
structure ListConfig where
  bulletStyle : String
  numberStyle : String
deriving Repr, DecidableEq

/-- Go pkg/config: CodeConfig. -/
structure CodeConfig where
  fenceStyle : String
deriving Repr, DecidableEq

/-- Go pkg/config: WhitespaceConfig. -/
structure WhitespaceConfig where
  maxBlankLines : Int
  trimTrailingSpaces : Bool
  ensureFinalNewline : Bool
deriving Repr, DecidableEq

/-- Go pkg/config: Config (the fields the core pipeline reads). -/
structure Config where
  lineWidth : Int
  heading : HeadingConfig
  list : ListConfig
  code : CodeConfig
  whitespace : WhitespaceConfig
deriving Repr, DecidableEq

/-- Go pkg/config: Config.Validate (true iff Validate returns nil). -/
def Config.validate (c : Config) : Bool :=
  (1 ≤ c.lineWidth) &&
  (c.heading.style == "atx" || c.heading.style == "setext") &&
  (c.list.bulletStyle == "-" || c.list.bulletStyle == "*" || c.list.bulletStyle == "+") &&
  (c.list.numberStyle == "." || c.list.numberStyle == ")") &&
  (c.code.fenceStyle == "```" || c.code.fenceStyle == "~~~") &&
  (0 ≤ c.whitespace.maxBlankLines)

/-- Go pkg/config: Default() restricted to the fields the core reads. -/
def Config.default : Config :=
  { lineWidth := 80
    heading := { style := "atx", normalizeLevels := true }
    list := { bulletStyle := "-", numberStyle := "." }
    code := { fenceStyle := "```" }
    whitespace := { maxBlankLines := 2, trimTrailingSpaces := true, ensureFinalNewline := true } }

/-- Go pkg/parser/ast.go: the ListItem struct (Text, Marker). -/
structure ListItemS where
  text : String
  marker : String
deriving Repr, DecidableEq

/-- Go pkg/parser/ast.go: the Node interface together with its concrete
implementations.  Document holds its children; List holds ListItem structs.
The extra constructor `unknown` stands for any foreign implementation of the
open Go interface (it reports an arbitrary integer from Type() and falls into
the default branch of every type switch). -/
inductive Node where
  | document (children : List Node)
  | heading (level : Int) (text : String) (style : String)
  | paragraph (text : String)
  | list (ordered : Bool) (items : List ListItemS) (marker : String)
  | listItem (item : ListItemS)
  | codeBlock (language : String) (content : String) (fenced : Bool) (fence : String)
  | text (content : String)
  | unknown (typ : Int)
deriving Repr

/-- Go pkg/parser/ast.go: the NodeType integer constants (iota order). -/
def Node.type : Node → Int
  | .document _ => 0
  | .heading _ _ _ => 1
  | .paragraph _ => 2
  | .list _ _ _ => 3
  | .listItem _ => 4
  | .codeBlock _ _ _ _ => 5
  | .text _ => 6
  | .unknown t => t

/-- Go pkg/parser/ast.go: NewWalker snapshots the document node followed by
its top-level children; Next yields exactly this sequence (no recursion into
nested structure). -/
def walkerNodes (children : List Node) : List Node :=
  Node.document children :: children

/-- Go pkg/parser/parser.go: parser.ParseString (the stub parser): a nonempty
content becomes a Document with a single Text child. -/
def parseString (content : String) : List Node :=
  if content.length > 0 then [Node.text content] else []

/-- Go pkg/formatter/formatter.go: the NodeFormatter interface.  The apply
function returns the (possibly mutated) node together with the Go error
value (none = nil). -/
structure NodeFormatter where
  name : String
  priority : Int
  canFormat : Int → Bool
  format : Node → Config → Node × Option String

/-- Go HeadingFormatter.Format: sets Style from the config ("atx" when the
configured style is "atx", otherwise "setext"); the NormalizeLevels branch is
an empty TODO, so levels are never changed; never returns an error. -/
def headingFormat (n : Node) (cfg : Config) : Node × Option String :=
  match n with
  | .heading level text _ =>
      (.heading level text (if cfg.heading.style == "atx" then "atx" else "setext"), none)
  | _ => (n, none)

/-- Go ParagraphFormatter.Format: a TODO no-op. -/
def paragraphFormat (n : Node) (_cfg : Config) : Node × Option String :=
  (n, none)

/-- Go ListFormatter.Format: an unordered List gets the configured bullet
marker; a ListItem node gets the configured bullet marker unconditionally;
anything else passes through.  Never returns an error. -/
def listFormat (n : Node) (cfg : Config) : Node × Option String :=
  match n with
  | .list ordered items marker =>
      (.list ordered items (if ordered then marker else cfg.list.bulletStyle), none)
  | .listItem it => (.listItem { it with marker := cfg.list.bulletStyle }, none)
  | _ => (n, none)

/-- Go CodeBlockFormatter.Format: a fenced code block gets the configured
fence token; never returns an error. -/
def codeBlockFormat (n : Node) (cfg : Config) : Node × Option String :=
  match n with
  | .codeBlock lang content fenced fence =>
      (.codeBlock lang content fenced (if fenced then cfg.code.fenceStyle else fence), none)
  | _ => (n, none)

/-- Go WhitespaceFormatter.Format: a TODO no-op. -/
def whitespaceFormat (n : Node) (_cfg : Config) : Node × Option String :=
  (n, none)

/-- Go RegisterDefaults constructs the formatters as zero-valued structs, so
every default formatter has priority 0 and an empty name. -/
def headingFormatter : NodeFormatter :=
  { name := "", priority := 0, canFormat := fun t => t == 1, format := headingFormat }

/-- Default paragraph formatter as registered by RegisterDefaults. -/
def paragraphFormatter : NodeFormatter :=
  { name := "", priority := 0, canFormat := fun t => t == 2, format := paragraphFormat }

/-- Default list formatter: CanFormat accepts both NodeList and NodeListItem. -/
def listFormatter : NodeFormatter :=
  { name := "", priority := 0, canFormat := fun t => t == 3 || t == 4, format := listFormat }

/-- Default code block formatter. -/
def codeBlockFormatter : NodeFormatter :=
  { name := "", priority := 0, canFormat := fun t => t == 5, format := codeBlockFormat }

/-- Default whitespace formatter: CanFormat accepts every node type. -/
def whitespaceFormatter : NodeFormatter :=
  { name := "", priority := 0, canFormat := fun _ => true, format := whitespaceFormat }

/-- Go Engine.Register appends the new formatter and then bubbles it towards
the front while its priority is strictly greater than its predecessor,
stopping at the first predecessor with priority at least as large.  This
helper is that loop viewed from the tail: it operates on the reversed list,
walking past every element of strictly smaller priority. -/
def bubbleUp (f : NodeFormatter) : List NodeFormatter → List NodeFormatter
  | [] => [f]
  | g :: rest =>
      if f.priority > g.priority then g :: bubbleUp f rest else f :: g :: rest

/-- Go Engine.Register: append then bubble up (see bubbleUp). -/
def register (fs : List NodeFormatter) (f : NodeFormatter) : List NodeFormatter :=
  (bubbleUp f fs.reverse).reverse

/-- A sequence of Engine.Register calls starting from an empty engine. -/
def registerAll (l : List NodeFormatter) : List NodeFormatter :=
  l.foldl register []

/-- Go Engine.RegisterDefaults: registers the five default formatters in
this order. -/
def defaultFormatters : List NodeFormatter :=
  registerAll [headingFormatter, paragraphFormatter, listFormatter,
               codeBlockFormatter, whitespaceFormatter]

/-- Inner loop of Go Engine.Format: scan the ordered formatter list and run
the first formatter whose CanFormat accepts the node type, then stop (the
break statement); if none matches the node is untouched and no error is
produced. -/
def applyFirst (fs : List NodeFormatter) (n : Node) (cfg : Config) : Node × Option String :=
  match fs with
  | [] => (n, none)
  | f :: rest => if f.canFormat n.type then f.format n cfg else applyFirst rest n cfg

/-- Go Engine.Format over the sequence of nodes yielded by the walker: each
node is processed in order; on the first formatter error the loop returns the
error at once, leaving the remaining nodes unprocessed; nodes already
processed keep their mutated state.  The first component is the final state
of the yielded nodes, the second the returned error. -/
def engineRun (fs : List NodeFormatter) (cfg : Config) : List Node → List Node × Option String
  | [] => ([], none)
  | n :: rest =>
      let r := applyFirst fs n cfg
      match r.2 with
      | some e => (r.1 :: rest, some e)
      | none =>
          let rr := engineRun fs cfg rest
          (r.1 :: rr.1, rr.2)

/-- Go Engine.Format on a document: drive the walker over the document node
and its top-level children. -/
def engineFormatState (fs : List NodeFormatter) (cfg : Config) (children : List Node) :
    List Node × Option String :=
  engineRun fs cfg (walkerNodes children)

/-- The error value returned by Go Engine.Format (nil modelled as none). -/
def engineFormat (fs : List NodeFormatter) (cfg : Config) (children : List Node) :
    Option String :=
  (engineFormatState fs cfg children).2

/-- Traversal index of the first node on which the applied formatter fails,
if any (for diagnostics about what information the returned error carries). -/
def failIndex (fs : List NodeFormatter) (cfg : Config) : List Node → Option Nat
  | [] => none
  | n :: rest =>
      match (applyFirst fs n cfg).2 with
      | some _ => some 0
      | none => (failIndex fs cfg rest).map (· + 1)

/-! Renderer (pkg/renderer/renderer.go).  String helpers first: they model
the Go standard library functions the renderer calls, working on the char
list of a string so that concrete witnesses evaluate inside the kernel. -/

/-- Go unicode.IsSpace restricted to the Latin-1 range (the characters Go
strings.Fields and strings.TrimSpace treat as space). -/
def isSpaceGo (c : Char) : Bool :=
  c == ' ' || c == '\t' || c == '\n' || c == '\x0b' || c == '\x0c' || c == '\r' ||
  c == '\x85' || c == '\xa0'

/-- Go strings.Split(s, newline): split a char list at every newline. -/
def splitLinesChars : List Char → List (List Char)
  | [] => [[]]
  | c :: cs =>
      let r := splitLinesChars cs
      if c == '\n' then
        [] :: r
      else
        match r with
        | [] => [[c]]
        | h :: t => (c :: h) :: t

/-- Go strings.Split(s, newline) on strings. -/
def splitLines (s : String) : List String :=
  (splitLinesChars s.data).map (fun cs => String.mk cs)

/-- Go strings.Join(lines, newline). -/
def joinLines (lines : List String) : String :=
  String.intercalate "\n" lines

/-- Go strings.HasSuffix. -/
def hasSuffix (s suffix : String) : Bool :=
  List.isPrefixOf suffix.data.reverse s.data.reverse

/-- Go strings.TrimRight(line, space-tab): drop trailing spaces and tabs. -/
def trimRightSpaceTab (s : String) : String :=
  String.mk ((s.data.reverse.dropWhile (fun c => c == ' ' || c == '\t')).reverse)

/-- Go strings.TrimSpace: drop leading and trailing white space. -/
def trimSpace (s : String) : String :=
  String.mk (((s.data.dropWhile isSpaceGo).reverse.dropWhile isSpaceGo).reverse)

/-- Go strings.Repeat(s, n) for a non-negative count. -/
def repeatStr (s : String) (n : Nat) : String :=
  String.mk (List.flatten (List.replicate n s.data))

/-- Go strings.Fields: the maximal runs of non-space characters. -/
def fieldsAux (cur : List Char) : List Char → List (List Char)
  | [] => if cur.isEmpty then [] else [cur.reverse]
  | c :: cs =>
      if isSpaceGo c then
        if cur.isEmpty then fieldsAux [] cs else cur.reverse :: fieldsAux [] cs
      else
        fieldsAux (c :: cur) cs

/-- Go strings.Fields on strings. -/
def fields (s : String) : List String :=
  (fieldsAux [] s.data).map (fun cs => String.mk cs)

/-- One iteration of the word loop in Go MarkdownRenderer.wrapText: flush the
current line when it is nonempty and the next word would push it past the
width, then append the word (after a separating space when the line is
nonempty). -/
def wrapStep (width : Int) (st : List String × String) (w : String) : List String × String :=
  let st1 :=
    if 0 < st.2.length ∧ width < (st.2.length : Int) + 1 + (w.length : Int) then
      (st.1 ++ [st.2], "")
    else
      st
  if 0 < st1.2.length then
    (st1.1, st1.2 ++ " " ++ w)
  else
    (st1.1, st1.2 ++ w)

/-- The list of lines Go wrapText builds for a nonempty word list: the word
loop followed by the final append of the current line (which is nonempty
exactly when the word list is). -/
def wrapLines (text : String) (width : Int) : List String :=
  let st := (fields text).foldl (wrapStep width) ([], "")
  st.1 ++ [st.2]

/-- Go MarkdownRenderer.wrapText. -/
def wrapText (text : String) (width : Int) : String :=
  if width ≤ 0 then text
  else if (fields text).isEmpty then text
  else joinLines (wrapLines text width)

/-- Go MarkdownRenderer.renderHeading.  The atx branch calls
strings.Repeat with the heading level, which panics in Go when the level is
negative; the panic is modelled as an error. -/
def renderHeading (_cfg : Config) (level : Int) (text : String) (style : String) :
    Except String String :=
  if style == "setext" && level ≤ 2 then
    let marker := if level == 2 then "-" else "="
    let textLength := (trimSpace text).length
    let textLength := if textLength == 0 then 3 else textLength
    .ok (text ++ "\n" ++ repeatStr marker textLength ++ "\n\n")
  else
    if level < 0 then
      .error "panic: strings: negative Repeat count"
    else
      .ok (repeatStr "#" level.toNat ++ " " ++ text ++ "\n\n")

/-- Go MarkdownRenderer.renderParagraph. -/
def renderParagraph (cfg : Config) (text : String) : String :=
  let content := if cfg.lineWidth > 0 then wrapText text cfg.lineWidth else text
  content ++ "\n\n"

/-- Go MarkdownRenderer.renderListItem: two-space indent per depth, the item
marker (the configured bullet when the stored marker is empty), a space, the
item text. -/
def renderListItem (cfg : Config) (item : ListItemS) (depth : Nat) : String :=
  let marker := if item.marker == "" then cfg.list.bulletStyle else item.marker
  repeatStr "  " depth ++ marker ++ " " ++ item.text

/-- Go MarkdownRenderer.renderList: items at depth+1 with a newline between
consecutive items, then one trailing newline. -/
def renderList (cfg : Config) (items : List ListItemS) (depth : Nat) : String :=
  joinLines (items.map (fun it => renderListItem cfg it (depth + 1))) ++ "\n"

/-- Go MarkdownRenderer.renderCodeBlock. -/
def renderCodeBlock (_cfg : Config) (language content : String) (fenced : Bool)
    (fence : String) : String :=
  if fenced then
    fence ++ (if language == "" then "" else language) ++ "\n" ++
      content ++ (if hasSuffix content "\n" then "" else "\n") ++ fence ++ "\n\n"
  else
    String.join ((splitLines content).map (fun line => "    " ++ line ++ "\n")) ++ "\n"

/-- Go MarkdownRenderer.renderText. -/
def renderText (cfg : Config) (content : String) : String :=
  if cfg.whitespace.trimTrailingSpaces then
    joinLines ((splitLines content).map trimRightSpaceTab)
  else
    content

/-- Go MarkdownRenderer.renderNode: type switch over the concrete node type;
the default branch (which also catches a nested Document) silently skips the
node. -/
def renderNode (cfg : Config) (n : Node) (depth : Nat) : Except String String :=
  match n with
  | .heading level text style => renderHeading cfg level text style
  | .paragraph text => .ok (renderParagraph cfg text)
  | .list _ items _ => .ok (renderList cfg items depth)
  | .listItem it => .ok (renderListItem cfg it depth)
  | .codeBlock lang content fenced fence =>
      .ok (renderCodeBlock cfg lang content fenced fence)
  | .text content => .ok (renderText cfg content)
  | .document _ => .ok ""
  | .unknown _ => .ok ""

/-- Go MarkdownRenderer.renderDocument: render each top-level child at depth
0, concatenating the emissions, stopping at the first error. -/
def renderDocument (cfg : Config) : List Node → Except String String
  | [] => .ok ""
  | n :: rest => do
      let s ← renderNode cfg n 0
      let r ← renderDocument cfg rest
      .ok (s ++ r)

/-- Go MarkdownRenderer.Render: render the document, then append a final
newline when EnsureFinalNewline is set and the output does not end in one. -/
def render (cfg : Config) (children : List Node) : Except String String :=
  (renderDocument cfg children).map (fun result =>
    if cfg.whitespace.ensureFinalNewline && !(hasSuffix result "\n") then
      result ++ "\n"
    else
      result)

/-- Longest run of consecutive blank (newline-only) lines in a string: the
maximal number of consecutive empty entries of strings.Split(s, newline). -/
def maxBlankRunAux : List (List Char) → Nat → Nat → Nat
  | [], cur, best => max cur best
  | l :: ls, cur, best =>
      if l.isEmpty then maxBlankRunAux ls (cur + 1) (max (cur + 1) best)
      else maxBlankRunAux ls 0 best

/-- Longest run of consecutive blank lines in a string. -/
def maxBlankRun (s : String) : Nat :=
  maxBlankRunAux (splitLinesChars s.data) 0 0

/-- A formatter whose predicate accepts heading nodes and whose apply
function always fails with a fixed error (used to probe the error path of
Engine.Format). -/
def failingHeadingFormatter : NodeFormatter :=
  { name := "failing-heading", priority := 0, canFormat := fun t => t == 1,
    format := fun n _ => (n, some "boom") }

/-- A formatter whose predicate accepts every node and whose apply function
always fails with the same fixed error. -/
def failingAllFormatter : NodeFormatter :=
  { name := "failing-all", priority := 0, canFormat := fun _ => true,
    format := fun n _ => (n, some "boom") }

/-- Decidable equality for renderer results, so concrete render runs can be
checked by evaluation. -/
instance : DecidableEq (Except String String) := fun a b =>
  match a, b with
  | .error x, .error y =>
      if h : x = y then isTrue (h ▸ rfl) else isFalse (fun hh => h (by injection hh))
  | .error _, .ok _ => isFalse (fun hh => Except.noConfusion hh)
  | .ok _, .error _ => isFalse (fun hh => Except.noConfusion hh)
  | .ok x, .ok y =>
      if h : x = y then isTrue (h ▸ rfl) else isFalse (fun hh => h (by injection hh))

/-! Helper lemmas. -/

/-- The scan of Engine.Format applies exactly the first formatter whose
predicate accepts the node type; with no match the node passes through. -/
theorem applyFirst_eq_find (fs : List NodeFormatter) (n : Node) (cfg : Config) :
    applyFirst fs n cfg =
      match fs.find? (fun f => f.canFormat n.type) with
      | some f => f.format n cfg
      | none => (n, none) := by
  induction fs with
  | nil => rfl
  | cons f rest ih =>
      by_cases h : f.canFormat n.type
      · simp [applyFirst, List.find?_cons_of_pos, h]
      · have hf : List.find? (fun g => g.canFormat n.type) (f :: rest) =
            List.find? (fun g => g.canFormat n.type) rest :=
          List.find?_cons_of_neg _ (by simpa using h)
        simp only [applyFirst, if_neg h, ih, hf]

/-- When Engine.Format returns nil, every yielded node has been processed by
the first-match scan. -/
theorem engineRun_map_of_ok (fs : List NodeFormatter) (cfg : Config) :
    ∀ nodes : List Node, (engineRun fs cfg nodes).2 = none →
      (engineRun fs cfg nodes).1 = nodes.map (fun n => (applyFirst fs n cfg).1) := by
  intro nodes
  induction nodes with
  | nil => intro _; rfl
  | cons n rest ih =>
      intro h
      cases hh : (applyFirst fs n cfg).2 with
      | some e => simp only [engineRun, hh] at h; exact absurd h (by simp)
      | none =>
          simp only [engineRun, hh] at h ⊢
          simp only [List.map_cons, List.cons.injEq, true_and]
          exact ih h

/-- No default formatter ever returns an error. -/
theorem applyFirst_defaults_ok (n : Node) (cfg : Config) :
    (applyFirst defaultFormatters n cfg).2 = none := by
  have hd : defaultFormatters =
      [headingFormatter, paragraphFormatter, listFormatter,
       codeBlockFormatter, whitespaceFormatter] := rfl
  rw [hd]
  simp only [applyFirst]
  split_ifs <;> cases n <;> rfl

/-- A run whose per-node scans never fail returns nil. -/
theorem engineRun_ok_of_all_ok (fs : List NodeFormatter) (cfg : Config)
    (hall : ∀ n : Node, (applyFirst fs n cfg).2 = none) :
    ∀ nodes : List Node, (engineRun fs cfg nodes).2 = none := by
  intro nodes
  induction nodes with
  | nil => rfl
  | cons n rest ih =>
      simp only [engineRun]
      rw [hall n]
      simpa using ih

/-- On a list node the default scan runs exactly the list formatter. -/
theorem applyFirst_defaults_list (cfg : Config) (ordered : Bool)
    (items : List ListItemS) (marker : String) :
    applyFirst defaultFormatters (Node.list ordered items marker) cfg =
      (Node.list ordered items (if ordered then marker else cfg.list.bulletStyle), none) :=
  rfl

/-! Claim theorems. -/

/-- C2: during a rule-engine pass that completes without error, every node
yielded by the traversal is rewritten by exactly the first formatter of the
engine's ordered list whose kind-predicate accepts the node's kind (the scan
stops there, so at most one apply function runs per node), and a node whose
kind matches no formatter passes through unmodified. -/
theorem engine_first_match_only (fs : List NodeFormatter) (cfg : Config)
    (children : List Node) (hok : engineFormat fs cfg children = none) :
    (engineFormatState fs cfg children).1 =
      (walkerNodes children).map (fun n =>
        match fs.find? (fun f => f.canFormat n.type) with
        | some f => (f.format n cfg).1
        | none => n) := by
  have hmap := engineRun_map_of_ok fs cfg (walkerNodes children) hok
  rw [engineFormatState, hmap]
  apply List.map_congr_left
  intro n _
  rw [applyFirst_eq_find]
  cases List.find? (fun f => f.canFormat n.type) fs <;> rfl

/-- Witness for engine_first_match_only: the default engine on a document
with a single heading child runs without error, and its result is the
first-match rewrite of the walker sequence. -/
theorem engine_first_match_only_witness :
    engineFormat defaultFormatters Config.default [Node.heading 1 "a" "atx"] = none ∧
    (engineFormatState defaultFormatters Config.default [Node.heading 1 "a" "atx"]).1 =
      (walkerNodes [Node.heading 1 "a" "atx"]).map (fun n =>
        match defaultFormatters.find? (fun f => f.canFormat n.type) with
        | some f => (f.format n Config.default).1
        | none => n) :=
  ⟨rfl, engine_first_match_only defaultFormatters Config.default
    [Node.heading 1 "a" "atx"] rfl⟩

/-- The default engine never returns an error (helper shared by several
results below). -/
theorem engineFormat_defaults_none (cfg : Config) (children : List Node) :
    engineFormat defaultFormatters cfg children = none :=
  engineRun_ok_of_all_ok defaultFormatters cfg
    (fun n => applyFirst_defaults_ok n cfg) (walkerNodes children)

/-- C10: the rule-engine pass with the default formatter set is total: for
every document tree and every configuration each default apply function
returns nil, so Engine.Format always returns nil and the error-abort branch
is unreachable. -/
theorem default_engine_never_fails (cfg : Config) (children : List Node) :
    engineFormat defaultFormatters cfg children = none :=
  engineFormat_defaults_none cfg children

/-- C3 counterexample: with the validated default settings (bullet style is
the minus sign) a document holding one unordered list whose single item
carries marker "*" comes out of the pass with the list marker set to the
bullet style but the item marker untouched: the ListItem marker differs from
its parent list's marker, refuting the claimed invariant.  The walker never
yields the items of a list, so the ListItem branch of the list formatter
never runs for them. -/
theorem list_item_marker_not_propagated :
    Config.default.validate = true ∧
    (engineFormatState defaultFormatters Config.default
        [Node.list false [⟨"a", "*"⟩] "-"]).1 =
      [Node.document [Node.list false [⟨"a", "*"⟩] "-"],
       Node.list false [⟨"a", "*"⟩] "-"] ∧
    (ListItemS.mk "a" "*").marker ≠ ("-" : String) :=
  ⟨rfl, rfl, by decide⟩

/-- C3 amended: after a default rule-engine pass with validated settings,
every top-level List node that is unordered has its marker overwritten with
the settings bullet style (an element of the set containing minus, star and
plus), while an ordered List keeps its marker and the items (hence all
ListItem markers) are passed through unchanged. -/
theorem list_marker_consistency (cfg : Config) (children : List Node) (i : Nat)
    (ordered : Bool) (items : List ListItemS) (marker : String)
    (hvalid : cfg.validate = true)
    (hi : children[i]? = some (Node.list ordered items marker)) :
    (engineFormatState defaultFormatters cfg children).1[i + 1]? =
      some (Node.list ordered items
        (if ordered then marker else cfg.list.bulletStyle)) ∧
    (cfg.list.bulletStyle = "-" ∨ cfg.list.bulletStyle = "*" ∨
     cfg.list.bulletStyle = "+") := by
  constructor
  · have hok : engineFormat defaultFormatters cfg children = none :=
      engineFormat_defaults_none cfg children
    have hmap := engineRun_map_of_ok defaultFormatters cfg (walkerNodes children) hok
    rw [engineFormatState, hmap]
    rw [List.getElem?_map]
    have hw : (walkerNodes children)[i + 1]? = children[i]? := by
      simp [walkerNodes]
    rw [hw, hi]
    simp [applyFirst_defaults_list]
  · simp only [Config.validate, Bool.and_eq_true, Bool.or_eq_true, beq_iff_eq,
      decide_eq_true_eq] at hvalid
    tauto

/-- Witness for list_marker_consistency at the default settings and a
document holding one unordered list. -/
theorem list_marker_consistency_witness :
    Config.default.validate = true ∧
    ([Node.list false [⟨"a", "*"⟩] "-"] : List Node)[0]? =
      some (Node.list false [⟨"a", "*"⟩] "-") ∧
    ((engineFormatState defaultFormatters Config.default
        [Node.list false [⟨"a", "*"⟩] "-"]).1[0 + 1]? =
      some (Node.list false [⟨"a", "*"⟩]
        (if false then "-" else Config.default.list.bulletStyle)) ∧
    (Config.default.list.bulletStyle = "-" ∨
     Config.default.list.bulletStyle = "*" ∨
     Config.default.list.bulletStyle = "+")) :=
  ⟨rfl, rfl, list_marker_consistency Config.default
    [Node.list false [⟨"a", "*"⟩] "-"] 0 false [⟨"a", "*"⟩] "-" rfl rfl⟩

/-- C4: heading level normalization is an empty TODO in the heading
formatter, so with normalization enabled the first (and only) heading of the
document keeps level 3 after the pass, violating the claimed invariant that
the first heading in traversal order has level 1. -/
theorem heading_level_not_normalized :
    Config.default.heading.normalizeLevels = true ∧
    (engineFormatState defaultFormatters Config.default
        [Node.heading 3 "Title" "atx"]).1 =
      [Node.document [Node.heading 3 "Title" "atx"],
       Node.heading 3 "Title" "atx"] ∧
    (3 : Int) ≠ 1 :=
  ⟨rfl, rfl, by decide⟩

/-- C5: no blank-line collapsing pass exists: Render only optionally appends
a final newline.  With the validated default settings (max_blank_lines = 2)
the document produced by the stub parser from a text holding a run of three
blank lines renders with that run intact, exceeding the bound. -/
theorem blank_lines_not_collapsed :
    Config.default.validate = true ∧
    Config.default.whitespace.maxBlankLines = 2 ∧
    render Config.default (parseString "a\n\n\n\nb") = .ok "a\n\n\n\nb\n" ∧
    maxBlankRun "a\n\n\n\nb\n" = 3 :=
  ⟨rfl, rfl, by decide, by decide⟩

/-- C6 counterexample: Engine.Format returns the failing formatter's error
value unchanged, so the surfaced error cannot carry the offending node's
kind or traversal index: two runs whose offending nodes sit at different
traversal indices (1 versus 2), and two runs whose offending nodes have
different kinds (Document versus Heading), surface the very same error. -/
theorem error_carries_no_position :
    engineFormat [failingHeadingFormatter] Config.default
        [Node.heading 1 "a" "atx"] = some "boom" ∧
    engineFormat [failingHeadingFormatter] Config.default
        [Node.codeBlock "" "x" true "```", Node.heading 1 "a" "atx"] = some "boom" ∧
    failIndex [failingHeadingFormatter] Config.default
        (walkerNodes [Node.heading 1 "a" "atx"]) = some 1 ∧
    failIndex [failingHeadingFormatter] Config.default
        (walkerNodes [Node.codeBlock "" "x" true "```", Node.heading 1 "a" "atx"]) =
      some 2 ∧
    engineFormat [failingAllFormatter] Config.default [] = some "boom" ∧
    failIndex [failingAllFormatter] Config.default (walkerNodes []) = some 0 ∧
    Node.type (Node.document []) ≠ Node.type (Node.heading 1 "a" "atx") :=
  ⟨rfl, rfl, rfl, rfl, rfl, rfl, by decide⟩

/-- C6 amended: when the applied formatter fails on a yielded node, the run
aborts at once (nodes after the failing one keep their input state), the
mutations already applied to earlier nodes are kept (no rollback), and the
error surfaced to the caller is the formatter's error value unchanged, with
no node kind or traversal index attached. -/
theorem engine_abort_semantics (fs : List NodeFormatter) (cfg : Config)
    (pre : List Node) (n : Node) (post : List Node) (e : String)
    (hpre : ∀ m ∈ pre, (applyFirst fs m cfg).2 = none)
    (hfail : (applyFirst fs n cfg).2 = some e) :
    engineRun fs cfg (pre ++ n :: post) =
      (pre.map (fun m => (applyFirst fs m cfg).1) ++
        (applyFirst fs n cfg).1 :: post, some e) := by
  induction pre with
  | nil => simp only [List.nil_append, List.map_nil, engineRun, hfail]
  | cons m rest ih =>
      have hm : (applyFirst fs m cfg).2 = none := hpre m (by simp)
      have ih2 := ih (fun x hx => hpre x (by simp [hx]))
      simp only [List.cons_append, engineRun, hm, List.append_eq, ih2, List.map_cons]

/-- Witness for engine_abort_semantics: the failing-on-headings engine on
the walker sequence of a one-heading document aborts at the heading with the
formatter's own error. -/
theorem engine_abort_semantics_witness :
    (∀ m ∈ ([Node.document [Node.heading 1 "a" "atx"]] : List Node),
      (applyFirst [failingHeadingFormatter] m Config.default).2 = none) ∧
    (applyFirst [failingHeadingFormatter] (Node.heading 1 "a" "atx")
        Config.default).2 = some "boom" ∧
    engineRun [failingHeadingFormatter] Config.default
        ([Node.document [Node.heading 1 "a" "atx"]] ++
          Node.heading 1 "a" "atx" :: []) =
      (([Node.document [Node.heading 1 "a" "atx"]] : List Node).map
          (fun m => (applyFirst [failingHeadingFormatter] m Config.default).1) ++
        (applyFirst [failingHeadingFormatter] (Node.heading 1 "a" "atx")
          Config.default).1 :: [],
       some "boom") :=
  ⟨by intro m hm; simp only [List.mem_singleton] at hm; subst hm; rfl, rfl,
   engine_abort_semantics [failingHeadingFormatter] Config.default
     [Node.document [Node.heading 1 "a" "atx"]] (Node.heading 1 "a" "atx") [] "boom"
     (by intro m hm; simp only [List.mem_singleton] at hm; subst hm; rfl) rfl⟩

/-- C7 counterexample: the renderer's default branch silently skips a node
of unknown kind instead of failing: rendering a document holding only an
unknown node succeeds (with the ensured final newline as the whole output)
rather than returning a RenderError. -/
theorem render_skips_unknown_kind :
    render Config.default [Node.unknown 99] = .ok "\n" := by decide

/-- The renderer can only fail on a heading with a negative level (the
modelled Go panic of strings.Repeat); every other node renders to a string. -/
theorem renderNode_ok (cfg : Config) (n : Node) (depth : Nat)
    (hlev : ∀ level text style, n = Node.heading level text style → 0 ≤ level) :
    ∃ s, renderNode cfg n depth = .ok s := by
  cases n with
  | heading level text style =>
      have h0 : 0 ≤ level := hlev level text style rfl
      simp only [renderNode, renderHeading]
      split
      · exact ⟨_, rfl⟩
      · rw [if_neg (by omega)]
        exact ⟨_, rfl⟩
  | document children => exact ⟨_, rfl⟩
  | paragraph text => exact ⟨_, rfl⟩
  | list ordered items marker => exact ⟨_, rfl⟩
  | listItem it => exact ⟨_, rfl⟩
  | codeBlock lang content fenced fence => exact ⟨_, rfl⟩
  | text content => exact ⟨_, rfl⟩
  | unknown t => exact ⟨_, rfl⟩

/-- C7 amended: render produces a single string for every tree whose heading
levels are non-negative — including trees holding nodes of unknown kind,
which are silently skipped; it never fails with a RenderError (the only
failure the code can produce is the Go panic of strings.Repeat on a heading
with a negative level). -/
theorem render_total (cfg : Config) (children : List Node)
    (hlev : ∀ level text style, Node.heading level text style ∈ children → 0 ≤ level) :
    ∃ s, render cfg children = .ok s := by
  have hdoc : ∀ l : List Node,
      (∀ level text style, Node.heading level text style ∈ l → 0 ≤ level) →
      ∃ s, renderDocument cfg l = .ok s := by
    intro l
    induction l with
    | nil => intro _; exact ⟨"", rfl⟩
    | cons n rest ih =>
        intro h
        obtain ⟨s1, hs1⟩ := renderNode_ok cfg n 0
          (fun lv t st hn => h lv t st (by rw [hn]; exact List.mem_cons_self _ _))
        obtain ⟨s2, hs2⟩ := ih (fun lv t st hm => h lv t st (List.mem_cons_of_mem _ hm))
        exact ⟨s1 ++ s2, by rw [renderDocument, hs1]; rw [hs2]; rfl⟩
  obtain ⟨s, hs⟩ := hdoc children hlev
  exact ⟨_, by rw [render, hs]; rfl⟩

/-- Witness for render_total: a document holding an unknown node and a
paragraph renders to a string. -/
theorem render_total_witness :
    (∀ level text style, Node.heading level text style ∈
        ([Node.unknown 99, Node.paragraph "hi"] : List Node) → 0 ≤ level) ∧
    ∃ s, render Config.default [Node.unknown 99, Node.paragraph "hi"] = .ok s :=
  ⟨by intro l t s h; simp at h,
   render_total Config.default [Node.unknown 99, Node.paragraph "hi"]
     (by intro l t s h; simp at h)⟩

/-- A line satisfies the wrap bound when it fits in the width or is a single
over-long word of the wrapped text. -/
def lineOK (words : List String) (width : Int) (l : String) : Prop :=
  (l.length : Int) ≤ width ∨ (l ∈ words ∧ width < (l.length : Int))

/-- An empty string is the only string of length zero. -/
theorem eq_empty_of_length_zero (s : String) (h : s.length = 0) : s = "" := by
  cases s with
  | mk data =>
      cases data with
      | nil => rfl
      | cons c cs => simp [String.length] at h

/-- Invariant preservation through one iteration of the wrapText word loop:
lines already flushed satisfy the bound, and the current line is empty, fits
the width, or is a single word. -/
theorem wrapStep_invariant (width : Int) (words : List String)
    (st : List String × String) (w : String) (hwmem : w ∈ words)
    (h1 : ∀ l ∈ st.1, lineOK words width l)
    (h2 : st.2 = "" ∨ (st.2.length : Int) ≤ width ∨ st.2 ∈ words) :
    (∀ l ∈ (wrapStep width st w).1, lineOK words width l) ∧
    ((wrapStep width st w).2 = "" ∨
      ((wrapStep width st w).2.length : Int) ≤ width ∨
      (wrapStep width st w).2 ∈ words) := by
  obtain ⟨lines, cur⟩ := st
  simp only at h1 h2 ⊢
  by_cases hc1 : 0 < cur.length ∧ width < (cur.length : Int) + 1 + (w.length : Int)
  · have hstep : wrapStep width (lines, cur) w = (lines ++ [cur], w) := by
      simp only [wrapStep, if_pos hc1]
      rfl
    rw [hstep]
    constructor
    · intro l hl
      rcases List.mem_append.mp hl with hmem | hone
      · exact h1 l hmem
      · have hls : l = cur := by simpa using hone
        rw [hls]
        rcases h2 with he | hle | hw2
        · exact absurd hc1.1 (by rw [he]; simp)
        · exact Or.inl hle
        · by_cases hlen : (cur.length : Int) ≤ width
          · exact Or.inl hlen
          · exact Or.inr ⟨hw2, by omega⟩
    · exact Or.inr (Or.inr hwmem)
  · by_cases hc2 : 0 < cur.length
    · have hle : (cur.length : Int) + 1 + (w.length : Int) ≤ width := by
        rcases not_and_or.mp hc1 with hh | hh
        · exact absurd hc2 hh
        · omega
      have hstep : wrapStep width (lines, cur) w = (lines, cur ++ " " ++ w) := by
        simp only [wrapStep, if_neg hc1]
        rw [if_pos hc2]
      rw [hstep]
      refine ⟨h1, Or.inr (Or.inl ?_)⟩
      have hlen : (cur ++ " " ++ w).length = cur.length + 1 + w.length := by
        simp only [String.length_append]
        rfl
      rw [hlen]
      push_cast
      omega
    · have he : cur = "" := eq_empty_of_length_zero cur (by omega)
      subst he
      have hstep : wrapStep width (lines, "") w = (lines, w) := rfl
      rw [hstep]
      exact ⟨h1, Or.inr (Or.inr hwmem)⟩

/-- Invariant preservation through the whole wrapText word loop. -/
theorem wrapFold_invariant (width : Int) (words : List String) :
    ∀ (ws : List String) (st : List String × String),
      (∀ w ∈ ws, w ∈ words) →
      (∀ l ∈ st.1, lineOK words width l) →
      (st.2 = "" ∨ (st.2.length : Int) ≤ width ∨ st.2 ∈ words) →
      (∀ l ∈ (ws.foldl (wrapStep width) st).1, lineOK words width l) ∧
      ((ws.foldl (wrapStep width) st).2 = "" ∨
        ((ws.foldl (wrapStep width) st).2.length : Int) ≤ width ∨
        (ws.foldl (wrapStep width) st).2 ∈ words) := by
  intro ws
  induction ws with
  | nil => intro st _ h1 h2; exact ⟨h1, h2⟩
  | cons w rest ih =>
      intro st hmem h1 h2
      have hst := wrapStep_invariant width words st w (hmem w (by simp)) h1 h2
      exact ih (wrapStep width st w) (fun x hx => hmem x (by simp [hx])) hst.1 hst.2

/-- C8: greedy wrapping never splits a word and respects the width: for a
positive width, every line produced by wrapText (the list wrapLines, joined
by newlines) either has at most width characters or is a single
whitespace-delimited word of the text that is longer than the width on its
own; and the paragraph renderer emits exactly these wrapped lines followed
by a blank line. -/
theorem wrap_lines_bounded (text : String) (width : Int) (hw : 0 < width) :
    (∀ line ∈ wrapLines text width,
      (line.length : Int) ≤ width ∨
      (line ∈ fields text ∧ width < (line.length : Int))) ∧
    (∀ cfg : Config, cfg.lineWidth = width →
      renderParagraph cfg text = wrapText text cfg.lineWidth ++ "\n\n") := by
  constructor
  · intro line hline
    have h := wrapFold_invariant width (fields text) (fields text) ([], "")
      (fun _ hx => hx) (by intro l hl; simp at hl) (Or.inl rfl)
    rw [wrapLines] at hline
    rcases List.mem_append.mp hline with hmem | hone
    · exact h.1 line hmem
    · have hls : line = ((fields text).foldl (wrapStep width) ([], "")).2 := by
        simpa using hone
      rcases h.2 with he | hle | hwmem
      · rw [hls, he]
        exact Or.inl (by simp; omega)
      · exact Or.inl (hls ▸ hle)
      · by_cases hlen : (line.length : Int) ≤ width
        · exact Or.inl hlen
        · exact Or.inr ⟨hls ▸ hwmem, by omega⟩
  · intro cfg hcfg
    rw [renderParagraph, if_pos (by omega)]

/-- Witness for wrap_lines_bounded at the wrap scenario of the spec: the
text with three four-letter words at width 9. -/
theorem wrap_lines_bounded_witness :
    (0 : Int) < 9 ∧
    ((∀ line ∈ wrapLines "aaaa bbbb cccc" 9,
      (line.length : Int) ≤ 9 ∨
      (line ∈ fields "aaaa bbbb cccc" ∧ 9 < (line.length : Int))) ∧
    (∀ cfg : Config, cfg.lineWidth = 9 →
      renderParagraph cfg "aaaa bbbb cccc" =
        wrapText "aaaa bbbb cccc" cfg.lineWidth ++ "\n\n")) :=
  ⟨by decide, wrap_lines_bounded "aaaa bbbb cccc" 9 (by decide)⟩

/-- The bubble pass of Engine.Register walks the new formatter past exactly
the maximal suffix of strictly smaller priorities. -/
theorem bubbleUp_eq (f : NodeFormatter) (l : List NodeFormatter) :
    bubbleUp f l =
      l.takeWhile (fun g => decide (g.priority < f.priority)) ++
        f :: l.dropWhile (fun g => decide (g.priority < f.priority)) := by
  induction l with
  | nil => rfl
  | cons g rest ih =>
      by_cases h : g.priority < f.priority
      · simp [bubbleUp, List.takeWhile_cons, List.dropWhile_cons, h, gt_iff_lt, ih]
      · simp [bubbleUp, List.takeWhile_cons, List.dropWhile_cons, h, gt_iff_lt]

/-- The bubble pass preserves an ascending priority chain. -/
theorem chain'_bubbleUp (f : NodeFormatter) :
    ∀ l : List NodeFormatter,
      List.Chain' (fun a b => a.priority ≤ b.priority) l →
      List.Chain' (fun a b => a.priority ≤ b.priority) (bubbleUp f l) := by
  intro l
  induction l with
  | nil => intro _; simp [bubbleUp]
  | cons g rest ih =>
      intro h
      rw [bubbleUp]
      by_cases hg : f.priority > g.priority
      · rw [if_pos hg]
        have hrest := List.Chain'.tail h
        refine List.Chain'.cons' (ih hrest) ?_
        intro y hy
        cases rest with
        | nil =>
            simp only [bubbleUp, List.head?] at hy
            cases hy
            exact le_of_lt hg
        | cons g2 t =>
            rw [bubbleUp] at hy
            by_cases hg2 : f.priority > g2.priority
            · rw [if_pos hg2] at hy
              simp only [List.head?] at hy
              cases hy
              exact (List.chain'_cons.mp h).1
            · rw [if_neg hg2] at hy
              simp only [List.head?] at hy
              cases hy
              exact le_of_lt hg
      · rw [if_neg hg]
        exact List.chain'_cons.mpr ⟨not_lt.mp hg, h⟩

/-- Engine.Register keeps the formatter list sorted by descending priority. -/
theorem register_sorted (fs : List NodeFormatter) (f : NodeFormatter)
    (h : List.Chain' (fun a b => b.priority ≤ a.priority) fs) :
    List.Chain' (fun a b => b.priority ≤ a.priority) (register fs f) := by
  rw [register, List.chain'_reverse]
  have h2 : List.Chain' (fun a b => a.priority ≤ b.priority) fs.reverse := by
    rw [List.chain'_reverse]
    exact h
  exact chain'_bubbleUp f fs.reverse h2

/-- Engine.Register moves the new formatter past strictly smaller priorities
only, so for every priority value the subsequence of formatters carrying
that priority just gains the new formatter at its end (when the priorities
match) and is otherwise untouched. -/
theorem register_filter (fs : List NodeFormatter) (f : NodeFormatter) (p : Int) :
    (register fs f).filter (fun g => g.priority == p) =
      fs.filter (fun g => g.priority == p) ++
        (if f.priority == p then [f] else []) := by
  have hsplit : fs =
      (fs.reverse.dropWhile (fun g => decide (g.priority < f.priority))).reverse ++
      (fs.reverse.takeWhile (fun g => decide (g.priority < f.priority))).reverse := by
    conv_lhs => rw [← List.reverse_reverse fs]
    conv_lhs =>
      rw [← List.takeWhile_append_dropWhile
        (fun g => decide (g.priority < f.priority)) fs.reverse]
    rw [List.reverse_append]
  have hreg : register fs f =
      (fs.reverse.dropWhile (fun g => decide (g.priority < f.priority))).reverse ++
        f :: (fs.reverse.takeWhile (fun g => decide (g.priority < f.priority))).reverse := by
    rw [register, bubbleUp_eq, List.reverse_append, List.reverse_cons,
      List.append_assoc, List.singleton_append]
  rw [hreg]
  conv_rhs => rw [hsplit]
  rw [List.filter_append, List.filter_append, List.filter_cons, List.append_assoc]
  by_cases hp : f.priority == p
  · have htake :
        ((fs.reverse.takeWhile (fun g => decide (g.priority < f.priority))).reverse).filter
          (fun g => g.priority == p) = [] := by
      apply List.filter_eq_nil_iff.mpr
      intro a ha
      have ha2 := List.mem_takeWhile_imp (List.mem_reverse.mp ha)
      simp only [decide_eq_true_eq] at ha2
      simp only [beq_iff_eq]
      have hfp : f.priority = p := by simpa using hp
      omega
    simp [hp, htake]
  · simp [hp]

/-- Invariant of a register sequence folded over an already registered
engine state. -/
theorem registerAll_fold (l : List NodeFormatter) :
    ∀ acc : List NodeFormatter,
      List.Chain' (fun a b => b.priority ≤ a.priority) acc →
      List.Chain' (fun a b => b.priority ≤ a.priority) (List.foldl register acc l) ∧
      ∀ p : Int, (List.foldl register acc l).filter (fun g => g.priority == p) =
        acc.filter (fun g => g.priority == p) ++ l.filter (fun g => g.priority == p) := by
  induction l with
  | nil => intro acc hacc; exact ⟨hacc, fun p => by simp⟩
  | cons f rest ih =>
      intro acc hacc
      obtain ⟨hs, hf⟩ := ih (register acc f) (register_sorted acc f hacc)
      refine ⟨hs, fun p => ?_⟩
      rw [List.foldl_cons, hf p, register_filter, List.filter_cons]
      by_cases hp : f.priority == p
      · simp [hp, List.append_assoc]
      · simp [hp]

/-- C9: after any sequence of Engine.Register calls starting from an empty
engine, the rule list is sorted in descending priority order, and for every
priority value the rules carrying it appear in their registration order (the
insertion is stable), so equal-priority rules fire in registration order
across repeated runs. -/
theorem register_sorted_and_stable (l : List NodeFormatter) :
    List.Chain' (fun a b => b.priority ≤ a.priority) (registerAll l) ∧
    ∀ p : Int, (registerAll l).filter (fun g => g.priority == p) =
      l.filter (fun g => g.priority == p) := by
  have h := registerAll_fold l [] (by simp)
  exact ⟨h.1, fun p => by simpa using h.2 p⟩

end Mdfmt
